import Mathlib

/-!
Verification of the CBIR retrieval-and-evaluation engine of this repository.

The notebooks are shallowly embedded: embedding vectors become lists of
rationals (exact arithmetic stand-in for floats), pandas tables become lists
of records, and the per-cell Python code becomes Lean functions that mirror
the source line by line.  The FAISS `IndexFlatL2.search` call and Python's
negative list indexing are external to the repository and are modelled from
their documented semantics where noted.
-/

namespace CBIR

/-- Embedding vectors, as lists of rationals (exact stand-in for the float
arrays of the notebooks). -/
abbrev Vec := List ℚ

/-- Dot product of two embedding vectors (vectors of one model share one
fixed dimension in the source). -/
def dot (u v : Vec) : ℚ := (List.zipWith (fun a b => a * b) u v).sum

/-- Squared Euclidean norm, `‖v‖²`. -/
def sqNorm (v : Vec) : ℚ := dot v v

/-- Squared Euclidean distance, the metric used by `faiss.IndexFlatL2`. -/
def sqDist (u v : Vec) : ℚ := sqNorm (List.zipWith (fun a b => a - b) u v)

/-- Number of k-means clusters chosen in Step 8 of `Evaluation_DINO.ipynb`:
`num_clusters = min(10, len(embeddings) // 100)`. -/
def num_clusters (n : ℕ) : ℕ := min 10 (n / 100)

/-- Embedding of the regex `^\d{3}_\d{2}\.jpg$` from `determine_source` in
`Evaluation_DINO.ipynb` (three digits, underscore, two digits, ".jpg"). -/
def matchJpg3 (cs : List Char) : Bool :=
  match cs with
  | [a, b, c, u, d, e, p, j1, j2, j3] =>
    a.isDigit && b.isDigit && c.isDigit && (u == '_') && d.isDigit && e.isDigit &&
      (p == '.') && (j1 == 'j') && (j2 == 'p') && (j3 == 'g')
  | _ => false

/-- Embedding of the regex `^\d{4}_\d{2}\.jpg$` from `determine_source` in
`Evaluation_DINO.ipynb` (four digits, underscore, two digits, ".jpg"). -/
def matchJpg4 (cs : List Char) : Bool :=
  match cs with
  | [a, b, c, c4, u, d, e, p, j1, j2, j3] =>
    a.isDigit && b.isDigit && c.isDigit && c4.isDigit && (u == '_') && d.isDigit &&
      e.isDigit && (p == '.') && (j1 == 'j') && (j2 == 'p') && (j3 == 'g')
  | _ => false

/-- The `determine_source` function of `Evaluation_DINO.ipynb`, Step 4:
a filename is from the 'matches' dataset when it matches one of the two
fixed-width digit patterns, and from 'pubmed' otherwise. -/
def determine_source (image_name : String) : String :=
  if matchJpg3 image_name.toList || matchJpg4 image_name.toList then "matches"
  else "pubmed"

/-- The `get_match_set` function of `src/unnamed/part_000` (cross-model
comparison notebook): regex `^(\d+)_\d+\.jpg$`, returning the leading digit
run as the match-set group, or "pubmed" when the pattern does not match.
Both `\d+` groups are forced (digits cannot overlap `_` or `.`), so greedy
matching is equivalent to taking maximal digit runs. -/
def get_match_set (image_name : String) : String :=
  let cs := image_name.toList
  let g := cs.takeWhile Char.isDigit
  match cs.drop g.length with
  | '_' :: rest =>
    let v := rest.takeWhile Char.isDigit
    if !g.isEmpty && !v.isEmpty && (rest.drop v.length == ['.', 'j', 'p', 'g']) then
      String.mk g
    else "pubmed"
  | _ => "pubmed"

example : determine_source "004_03.jpg" = "matches" := by decide
example : determine_source "0043_07.jpg" = "matches" := by decide
example : determine_source "a1b2c3.jpg" = "pubmed" := by decide
example : determine_source "12_345.jpg" = "pubmed" := by decide
example : get_match_set "004_03.jpg" = "004" := by decide
example : get_match_set "12_345.jpg" = "12" := by decide
example : get_match_set "a1b2c3.jpg" = "pubmed" := by decide
example : get_match_set "12_34_56.jpg" = "pubmed" := by decide

example : num_clusters 50 = 0 := by decide
example : num_clusters 2500 = 10 := by decide

/-- Comparison key used to model FAISS result ordering: ascending squared
distance, ties broken by insertion order (smaller index first). -/
def dKey (p q : ℕ × ℚ) : Prop := p.2 < q.2 ∨ (p.2 = q.2 ∧ p.1 ≤ q.1)

instance : DecidableRel dKey := fun p q => by
  unfold dKey; exact inferInstance

instance : IsTotal (ℕ × ℚ) dKey := by
  constructor
  intro p q
  rcases lt_trichotomy p.2 q.2 with h | h | h
  · exact Or.inl (Or.inl h)
  · rcases Nat.le_total p.1 q.1 with h1 | h1
    · exact Or.inl (Or.inr ⟨h, h1⟩)
    · exact Or.inr (Or.inr ⟨h.symm, h1⟩)
  · exact Or.inr (Or.inl h)

instance : IsTrans (ℕ × ℚ) dKey := by
  constructor
  intro p q r hpq hqr
  rcases hpq with h1 | ⟨h1, h1i⟩
  · rcases hqr with h2 | ⟨h2, _⟩
    · exact Or.inl (h1.trans h2)
    · exact Or.inl (h2 ▸ h1)
  · rcases hqr with h2 | ⟨h2, h2i⟩
    · exact Or.inl (h1 ▸ h2)
    · exact Or.inr ⟨h1.trans h2, h1i.trans h2i⟩

/-- All stored vectors of an index, paired with their insertion index and
ranked by ascending squared distance to the query (ties by insertion order). -/
def rankedNeighbors (q : Vec) (xs : List Vec) : List (ℕ × ℚ) :=
  List.insertionSort dKey ((xs.map (sqDist q)).enum)

/-- Modelled from the spec: the `search` method of the external
`faiss.IndexFlatL2` similarity index used by the notebooks (library code not
in `src/`).  For a single query it returns exactly `k` result slots containing
the stored vectors ranked by ascending squared L2 distance (ties by insertion
order); when `k` exceeds the number of stored vectors, the remaining slots are
padded with the sentinel index `-1`. -/
def faissSearch (q : Vec) (xs : List Vec) (k : ℕ) : List (ℤ × ℚ) :=
  ((rankedNeighbors q xs).take k).map (fun p => ((p.1 : ℤ), p.2)) ++
    List.replicate (k - xs.length) (-1, -1)

/-- Modelled from the spec: Python/pandas positional indexing
(`image_files[i]`, `df.iloc[i]`) as applied to the integer indices returned by
FAISS, with a negative index counting from the end of the list (so `-1` is the
last element).  The Python runtime is not part of `src/`. -/
def pyGet {α : Type} (l : List α) (dflt : α) (i : ℤ) : α :=
  if 0 ≤ i then l.getD i.toNat dflt else l.getD (l.length - (-i).toNat) dflt

/-- Character-list prefix test (structural helper for `strStarts`). -/
def startsAux : List Char → List Char → Bool
  | [], _ => true
  | _ :: _, [] => false
  | a :: as, b :: bs => (a == b) && startsAux as bs

/-- Python's `str.startswith` / pandas `.str.startswith`: `p` is a prefix
of `s`. -/
def strStarts (s p : String) : Bool := startsAux p.toList s.toList

/-- Python's `query_image_name.split('_')[0]`: the part of the string before
the first underscore (the whole string when there is none). -/
def pySplitFirst (s : String) : String :=
  String.mk (s.toList.takeWhile (fun c => !(c == '_')))

/-- A row of the evaluation DataFrame `df` of `Evaluation_DINO.ipynb`:
`image_file` is the stored filename, `original_image` the mapped original
(`augmented_mapping.get(x, x)`); the row's position is its embedding index. -/
structure Row where
  image_file : String
  original_image : String
deriving DecidableEq, Repr, Inhabited

/-- The `source` column of `df`: `determine_source` applied to `image_file`. -/
def rowSource (r : Row) : String := determine_source r.image_file

/-- The `evaluate_retrieval` function of `Evaluation_DINO.ipynb`, Step 6:
counts `total_available_matches` over the whole table by
`original_image.str.startswith(query.split('_')[0])` together with
`source == 'matches'`, counts `num_matches_found` on the retrieved rows by the
same two filters, and divides only when the denominator is positive.
Returns `(num_matches_found, total_available_matches, match_accuracy)`. -/
def evaluate_retrieval (df : List Row) (query_image_name : String)
    (retrieved_images : List Row) : ℕ × ℕ × ℚ :=
  let px := pySplitFirst query_image_name
  let total_available_matches :=
    (df.filter (fun r => strStarts r.original_image px && (rowSource r == "matches"))).length
  let retrieved_matches := retrieved_images.filter (fun r => strStarts r.original_image px)
  let num_matches_found :=
    (retrieved_matches.filter (fun r => rowSource r == "matches")).length
  let match_accuracy : ℚ :=
    if 0 < total_available_matches then
      (num_matches_found : ℚ) / (total_available_matches : ℚ)
    else 0
  (num_matches_found, total_available_matches, match_accuracy)

/-- Positional indices of the rows whose key column equals `q`
(the `df[df[col] == q]['embedding_index'].tolist()` idiom), with an explicit
running offset. -/
def idxOfAux (l : List String) (q : String) (n : ℕ) : List ℕ :=
  match l with
  | [] => []
  | f :: rest => if f == q then n :: idxOfAux rest q (n + 1) else idxOfAux rest q (n + 1)

/-- Positional indices of the entries equal to `q`, starting at 0. -/
def idxOf (l : List String) (q : String) : List ℕ := idxOfAux l q 0

/-- The `retrieve_images_for_model` function of `src/unnamed/part_000`
(Step 6.2 of the cross-model notebook): builds a flat L2 index over the
model's embeddings, searches for `top_k + 1` neighbours of the query's first
embedding, drops the first result slot (assumed to be the query itself), and
scores the rest against the query's `match_set` with exact equality;
`total_available_matches` is the full `match_set` count minus one.  Returns
`none` when the query has no embedding (the warning-and-return-None branch),
otherwise `(retrieved_images, num_matches_found, total_available_matches,
match_accuracy)`. -/
def retrieve_images_for_model (image_files : List String) (embeddings : List Vec)
    (query_image_name : String) (top_k : ℕ) :
    Option (List String × ℕ × ℤ × ℚ) :=
  match idxOf image_files query_image_name with
  | [] => none
  | query_idx :: _ =>
    let query_embedding := embeddings.getD query_idx []
    let res := faissSearch query_embedding embeddings (top_k + 1)
    let retrieved_indices := (res.map (fun p => p.1)).drop 1
    let retrieved_images := retrieved_indices.map (fun i => pyGet image_files "" i)
    let query_match_set := get_match_set (image_files.getD query_idx "")
    let num_matches_found :=
      (retrieved_indices.filter
        (fun i => get_match_set (pyGet image_files "" i) == query_match_set)).length
    let total_available_matches : ℤ :=
      ((image_files.filter (fun f => get_match_set f == query_match_set)).length : ℤ) - 1
    let match_accuracy : ℚ :=
      if 0 < total_available_matches then
        (num_matches_found : ℚ) / (total_available_matches : ℚ)
      else 0
    some (retrieved_images, num_matches_found, total_available_matches, match_accuracy)

/-- One row of the final evaluation DataFrame of `Evaluation_DINO.ipynb`,
Step 11. -/
structure EvalRow where
  queried : String
  num_found : ℕ
  total_avail : ℕ
  accuracy : ℚ
deriving DecidableEq, Repr, Inhabited

/-- The body of the Step 11 evaluation loop of `Evaluation_DINO.ipynb` for a
single query: resolve the query to its first embedding index (`none`, with a
printed warning, when there is no matching row), search the index for the top
10 neighbours, fetch the retrieved rows positionally, and score them with
`evaluate_retrieval`. -/
def evalQueryStep11 (df : List Row) (embeddings : List Vec) (query : String) :
    Option EvalRow :=
  match idxOf (df.map (fun r => r.original_image)) query with
  | [] => none
  | query_idx :: _ =>
    let query_embedding := embeddings.getD query_idx []
    let res := faissSearch query_embedding embeddings 10
    let retrieved_images := (res.map (fun p => p.1)).map (fun i => pyGet df default i)
    let e := evaluate_retrieval df query retrieved_images
    some ⟨query, e.1, e.2.1, e.2.2⟩

/-- The warning printed by the Step 11 loop for a query with no embedding. -/
def warnMsg (query : String) : String :=
  "No embeddings found for query image: " ++ query

/-- Whether some row of `df` resolves the query identifier
(`df['original_image'] == query` is non-empty). -/
def hasEmbedding (df : List Row) (query : String) : Bool :=
  df.any (fun r => r.original_image == query)

/-- The Step 11 evaluation loop of `Evaluation_DINO.ipynb`: fold over the
query list, recording a warning and skipping when a query has no embedding,
and appending one result row otherwise.  Returns the warnings and the rows of
`evaluation_df`. -/
def step11 (df : List Row) (embeddings : List Vec) (queries : List String) :
    List String × List EvalRow :=
  queries.foldl
    (fun acc q =>
      match evalQueryStep11 df embeddings q with
      | none => (acc.1 ++ [warnMsg q], acc.2)
      | some r => (acc.1, acc.2 ++ [r]))
    ([], [])

/-- Maximum of a list of rationals (`0` for the empty list, which the source
never hits: `np.argmax` is only applied to non-empty groups). -/
def listMax : List ℚ → ℚ
  | [] => 0
  | [x] => x
  | x :: y :: rest => max x (listMax (y :: rest))

/-- Index of the first occurrence of the maximum, the behaviour of
`np.argmax` on the group's norm array. -/
def argmaxFirst (l : List ℚ) : ℕ := l.indexOf (listMax l)

/-- The embeddings of one `groupby('original_image')` group, in original row
order (pandas preserves within-group order). -/
def groupRows (rows : List (String × Vec)) (key : String) : List Vec :=
  (rows.filter (fun r => r.1 == key)).map (fun r => r.2)

/-- The representative-selection step shared by all four notebooks
(Highest-Norm Criterion): for one group, pick the embedding whose norm is
maximal, first occurrence on ties (`np.argmax` over the group's norms).
Squared norms are used, an order-preserving stand-in for `np.linalg.norm`. -/
def selectRepresentative (g : List Vec) : Vec :=
  g.getD (argmaxFirst (g.map sqNorm)) []

/-- Stated from the spec sentence of the refinement claim: the selector that
simply returns the first-seen embedding of each group. -/
def firstSeenSelector (g : List Vec) : Vec := g.headD []

example : (evaluate_retrieval
    [⟨"004_03.jpg", "004_03.jpg"⟩, ⟨"0041_01.jpg", "0041_01.jpg"⟩]
    "004_03.jpg" []).2.1 = 2 := by decide

example : (faissSearch [1] [[1]] 3).map (fun p => p.1) = [0, -1, -1] := by decide

example : ((evalQueryStep11 [⟨"004_01.jpg", "004_01.jpg"⟩] [[1]] "004_01.jpg").map
    (fun r => (r.num_found, r.total_avail))) = some (10, 1) := by decide

lemma dot_nil_left (v : Vec) : dot [] v = 0 := by
  simp [dot]

lemma dot_cons_cons (a b : ℚ) (u v : Vec) :
    dot (a :: u) (b :: v) = a * b + dot u v := by
  simp [dot]

lemma sqNorm_cons (a : ℚ) (u : Vec) : sqNorm (a :: u) = a * a + sqNorm u := by
  simp [sqNorm, dot]

lemma sqDist_cons_cons (a b : ℚ) (u v : Vec) :
    sqDist (a :: u) (b :: v) = (a - b) * (a - b) + sqDist u v := by
  simp [sqDist, sqNorm, dot]

lemma sqDist_nil_left (v : Vec) : sqDist [] v = 0 := by
  simp [sqDist, sqNorm, dot]

lemma sqDist_nil_right (v : Vec) : sqDist v [] = 0 := by
  cases v <;> simp [sqDist, sqNorm, dot]

lemma sqDist_nonneg (u v : Vec) : 0 ≤ sqDist u v := by
  induction u generalizing v with
  | nil => rw [sqDist_nil_left]
  | cons a u ih =>
    cases v with
    | nil => rw [sqDist_nil_right]
    | cons b v =>
      rw [sqDist_cons_cons]
      have := ih v
      nlinarith [mul_self_nonneg (a - b)]

lemma sqDist_self (v : Vec) : sqDist v v = 0 := by
  induction v with
  | nil => rw [sqDist_nil_left]
  | cons a u ih => rw [sqDist_cons_cons]; rw [ih]; ring

lemma sqDist_eq_zero (u v : Vec) (hlen : u.length = v.length)
    (h : sqDist u v = 0) : u = v := by
  induction u generalizing v with
  | nil =>
    cases v with
    | nil => rfl
    | cons b v => simp at hlen
  | cons a u ih =>
    cases v with
    | nil => simp at hlen
    | cons b v =>
      rw [sqDist_cons_cons] at h
      have h1 : 0 ≤ sqDist u v := sqDist_nonneg u v
      have h2 : 0 ≤ (a - b) * (a - b) := mul_self_nonneg _
      have hab : (a - b) * (a - b) = 0 := by linarith
      have hd : sqDist u v = 0 := by linarith
      have hab2 : a = b := by
        have := mul_self_eq_zero.mp hab
        linarith
      have hlen2 : u.length = v.length := by simpa using hlen
      rw [hab2, ih v hlen2 hd]

lemma sqDist_expand (u v : Vec) (hlen : u.length = v.length) :
    sqDist u v = sqNorm u + sqNorm v - 2 * dot u v := by
  induction u generalizing v with
  | nil =>
    cases v with
    | nil => simp [sqDist, sqNorm, dot]
    | cons b v => simp at hlen
  | cons a u ih =>
    cases v with
    | nil => simp at hlen
    | cons b v =>
      have hlen2 : u.length = v.length := by simpa using hlen
      rw [sqDist_cons_cons, sqNorm_cons, sqNorm_cons, dot_cons_cons, ih v hlen2]
      ring

/-- C2 counterexample: for a dataset of 50 embeddings the code requests
`min(10, 50 // 100) = 0` clusters, not `max(1, min(10, 50 // 100)) = 1` as
the claim states — no cluster at all is requested for this non-empty
dataset. -/
theorem c2_counterexample :
    num_clusters 50 = 0 ∧ num_clusters 50 ≠ max 1 (min 10 (50 / 100)) := by
  decide

/-- C2 (amended): the Cluster Diagnostics step chooses
`num_clusters = min(10, N // 100)`: at most 10 clusters for any `N`, at
least one exactly when `N ≥ 100`, and zero clusters (no `max(1, ·)` guard)
whenever `N < 100`. -/
theorem c2_num_clusters (n : ℕ) :
    num_clusters n ≤ 10 ∧ (100 ≤ n → 1 ≤ num_clusters n) ∧
      (n < 100 → num_clusters n = 0) := by
  unfold num_clusters
  omega

/-- Witness for C2 at concrete dataset sizes 150 and 50. -/
theorem c2_num_clusters_witness :
    1 ≤ num_clusters 150 ∧ num_clusters 50 = 0 :=
  ⟨(c2_num_clusters 150).2.1 (by decide), (c2_num_clusters 50).2.2 (by decide)⟩

/-- C7: for unit-normalized vectors (of the model's shared dimension) the
squared Euclidean distance computed by the flat L2 index satisfies
`d² = 2 − 2·⟨q,u⟩` (the dot product is the cosine of the angle for unit
vectors), so ascending squared distance orders any two candidates exactly as
descending cosine similarity does. -/
theorem c7_unit_distance_cosine (q u v : Vec)
    (hq : sqNorm q = 1) (hu : sqNorm u = 1) (hv : sqNorm v = 1)
    (hqu : q.length = u.length) (hqv : q.length = v.length) :
    sqDist q u = 2 - 2 * dot q u ∧
      (sqDist q u ≤ sqDist q v ↔ dot q v ≤ dot q u) := by
  have h1 : sqDist q u = 2 - 2 * dot q u := by
    rw [sqDist_expand q u hqu, hq, hu]; ring
  have h2 : sqDist q v = 2 - 2 * dot q v := by
    rw [sqDist_expand q v hqv, hq, hv]; ring
  refine ⟨h1, ?_⟩
  rw [h1, h2]
  constructor <;> intro h <;> linarith

/-- Witness for C7 on the unit vectors `[1,0]`, `[0,1]`, `[1,0]`. -/
theorem c7_unit_distance_cosine_witness :
    sqDist [1, 0] [0, 1] = 2 - 2 * dot [1, 0] [0, 1] ∧
      (sqDist [1, 0] [0, 1] ≤ sqDist [1, 0] [1, 0] ↔
        dot [1, 0] [1, 0] ≤ dot [1, 0] [0, 1]) :=
  c7_unit_distance_cosine [1, 0] [0, 1] [1, 0]
    (by norm_num [sqNorm, dot]) (by norm_num [sqNorm, dot])
    (by norm_num [sqNorm, dot]) (by norm_num) (by norm_num)

lemma takeWhile_digits_append (g : List Char) (x : Char) (r : List Char)
    (hg : ∀ c ∈ g, c.isDigit = true) (hx : x.isDigit = false) :
    (g ++ x :: r).takeWhile Char.isDigit = g := by
  induction g with
  | nil => simp [List.takeWhile_cons, hx]
  | cons a t ih =>
    have ha : a.isDigit = true := hg a (List.mem_cons_self a t)
    have ht : ∀ c ∈ t, c.isDigit = true := fun c hc => hg c (List.mem_cons_of_mem a hc)
    simp [List.takeWhile_cons, ha, ih ht]

lemma get_match_set_decomp (name : String) (g v : List Char)
    (hname : name.toList = g ++ '_' :: (v ++ ['.', 'j', 'p', 'g']))
    (hg : ∀ c ∈ g, c.isDigit = true) (hgne : g ≠ [])
    (hv : ∀ c ∈ v, c.isDigit = true) (hvne : v ≠ []) :
    get_match_set name = String.mk g := by
  have hu : ('_' : Char).isDigit = false := by decide
  have hdot : ('.' : Char).isDigit = false := by decide
  have htw : (name.toList.takeWhile Char.isDigit) = g := by
    rw [hname]; exact takeWhile_digits_append g '_' _ hg hu
  have hdrop : name.toList.drop g.length = '_' :: (v ++ ['.', 'j', 'p', 'g']) := by
    rw [hname]; exact List.drop_left g _
  have htwv : ((v ++ ['.', 'j', 'p', 'g']).takeWhile Char.isDigit) = v := by
    exact takeWhile_digits_append v '.' _ hv hdot
  have hdropv : (v ++ ['.', 'j', 'p', 'g']).drop v.length = ['.', 'j', 'p', 'g'] :=
    List.drop_left v _
  have hgne' : g.isEmpty = false := by
    cases g with
    | nil => exact absurd rfl hgne
    | cons a t => rfl
  have hvne' : v.isEmpty = false := by
    cases v with
    | nil => exact absurd rfl hvne
    | cons a t => rfl
  unfold get_match_set
  simp only [htw, hdrop]
  simp [htwv, hdropv, hgne', hvne']

/-- C5 counterexample: the identifier "12_345.jpg" has a 2-digit group-id and
a 3-digit variant-id, so the claimed rule (group-id of 3 or 4 digits,
variant-id of exactly 2 digits) classifies it as unlabeled; yet
`get_match_set` classifies it as match-set group "12" — and
`determine_source` simultaneously classifies the same identifier as
'pubmed', so the repository has no single classification rule of the claimed
shape. -/
theorem c5_counterexample :
    get_match_set "12_345.jpg" = "12" ∧ get_match_set "12_345.jpg" ≠ "pubmed" ∧
      determine_source "12_345.jpg" = "pubmed" := by
  decide

/-- C5 (amended): `determine_source` classifies an identifier as match-set
exactly when it matches `<3-or-4-digit group>_<2-digit variant>.jpg`, while
`get_match_set` accepts digit runs of any positive width; every identifier
`determine_source` accepts is therefore also given a (digit-run) group by
`get_match_set`, but not conversely.  On the claim's examples both agree:
"004_03.jpg" is match-set group "004" (and 4-digit "0043_07.jpg" group
"0043"), while "a1b2c3.jpg" is unlabeled ("pubmed"). -/
theorem c5_classification :
    (∀ name : String, determine_source name = "matches" →
      get_match_set name ≠ "pubmed") ∧
    get_match_set "004_03.jpg" = "004" ∧ determine_source "004_03.jpg" = "matches" ∧
    get_match_set "0043_07.jpg" = "0043" ∧ determine_source "0043_07.jpg" = "matches" ∧
    get_match_set "a1b2c3.jpg" = "pubmed" ∧ determine_source "a1b2c3.jpg" = "pubmed" := by
  refine ⟨?_, by decide, by decide, by decide, by decide, by decide, by decide⟩
  intro name h
  unfold determine_source at h
  by_cases hcond : (matchJpg3 name.toList || matchJpg4 name.toList) = true
  · simp only [Bool.or_eq_true] at hcond
    rcases hcond with h3 | h4
    · unfold matchJpg3 at h3
      split at h3
      next a b c u d e p j1 j2 j3 heq =>
        simp only [Bool.and_eq_true, beq_iff_eq] at h3
        obtain ⟨⟨⟨⟨⟨⟨⟨⟨⟨ha, hb⟩, hc⟩, hu⟩, hd⟩, he⟩, hp⟩, hj1⟩, hj2⟩, hj3⟩ := h3
        subst hu hp hj1 hj2 hj3
        have hms : get_match_set name = String.mk [a, b, c] := by
          apply get_match_set_decomp name [a, b, c] [d, e]
          · rw [heq]; rfl
          · intro x hx
            rcases List.mem_cons.mp hx with rfl | hx
            · exact ha
            rcases List.mem_cons.mp hx with rfl | hx
            · exact hb
            rcases List.mem_cons.mp hx with rfl | hx
            · exact hc
            · exact absurd hx (List.not_mem_nil x)
          · simp
          · intro x hx
            rcases List.mem_cons.mp hx with rfl | hx
            · exact hd
            rcases List.mem_cons.mp hx with rfl | hx
            · exact he
            · exact absurd hx (List.not_mem_nil x)
          · simp
        rw [hms]
        intro hEq
        have h2 : ([a, b, c] : List Char) = "pubmed".data := congrArg String.data hEq
        have h3l := congrArg List.length h2
        simp at h3l
      next =>
        exact absurd h3 (by simp)
    · unfold matchJpg4 at h4
      split at h4
      next a b c c4 u d e p j1 j2 j3 heq =>
        simp only [Bool.and_eq_true, beq_iff_eq] at h4
        obtain ⟨⟨⟨⟨⟨⟨⟨⟨⟨⟨ha, hb⟩, hc⟩, hc4⟩, hu⟩, hd⟩, he⟩, hp⟩, hj1⟩, hj2⟩, hj3⟩ := h4
        subst hu hp hj1 hj2 hj3
        have hms : get_match_set name = String.mk [a, b, c, c4] := by
          apply get_match_set_decomp name [a, b, c, c4] [d, e]
          · rw [heq]; rfl
          · intro x hx
            rcases List.mem_cons.mp hx with rfl | hx
            · exact ha
            rcases List.mem_cons.mp hx with rfl | hx
            · exact hb
            rcases List.mem_cons.mp hx with rfl | hx
            · exact hc
            rcases List.mem_cons.mp hx with rfl | hx
            · exact hc4
            · exact absurd hx (List.not_mem_nil x)
          · simp
          · intro x hx
            rcases List.mem_cons.mp hx with rfl | hx
            · exact hd
            rcases List.mem_cons.mp hx with rfl | hx
            · exact he
            · exact absurd hx (List.not_mem_nil x)
          · simp
        rw [hms]
        intro hEq
        have h2 : ([a, b, c, c4] : List Char) = "pubmed".data := congrArg String.data hEq
        have h4l := congrArg List.length h2
        simp at h4l
      next =>
        exact absurd h4 (by simp)
  · rw [if_neg hcond] at h
    exact absurd h (by decide)

/-- Witness for C5 at the identifier "004_03.jpg". -/
theorem c5_classification_witness : get_match_set "004_03.jpg" ≠ "pubmed" :=
  c5_classification.1 "004_03.jpg" (by decide)

lemma listMax_mem : ∀ (l : List ℚ), l ≠ [] → listMax l ∈ l
  | [], h => absurd rfl h
  | [x], _ => by simp [listMax]
  | x :: y :: rest, _ => by
    have hrec := listMax_mem (y :: rest) (by simp)
    rcases max_cases x (listMax (y :: rest)) with ⟨h, _⟩ | ⟨h, _⟩
    · rw [show listMax (x :: y :: rest) = max x (listMax (y :: rest)) from rfl, h]
      exact List.mem_cons_self _ _
    · rw [show listMax (x :: y :: rest) = max x (listMax (y :: rest)) from rfl, h]
      exact List.mem_cons_of_mem _ hrec

lemma le_listMax : ∀ (l : List ℚ), ∀ x ∈ l, x ≤ listMax l
  | [] => by intro x hx; exact absurd hx (List.not_mem_nil x)
  | [y] => by
    intro x hx
    rcases List.mem_cons.mp hx with rfl | hx
    · exact le_refl _
    · exact absurd hx (List.not_mem_nil x)
  | y :: z :: rest => by
    intro x hx
    rcases List.mem_cons.mp hx with rfl | hx
    · exact le_max_left _ _
    · exact le_trans (le_listMax (z :: rest) x hx) (le_max_right _ _)

lemma get_lt_indexOf_ne (l : List ℚ) (a : ℚ) :
    ∀ (i : ℕ) (hl : i < l.length), i < l.indexOf a → l.get ⟨i, hl⟩ ≠ a := by
  induction l with
  | nil => intro i hl; simp at hl
  | cons x t ih =>
    intro i hl hi
    by_cases hx : x = a
    · rw [List.indexOf_cons_eq t hx] at hi; omega
    · rw [List.indexOf_cons_ne t hx] at hi
      cases i with
      | zero => simpa using hx
      | succ j =>
        have hj : j < t.length := by simpa using hl
        have := ih j hj (by omega)
        simpa using this

lemma selectRepresentative_spec (g : List Vec) (hne : g ≠ []) :
    ∃ hj : argmaxFirst (g.map sqNorm) < g.length,
      selectRepresentative g = g.get ⟨argmaxFirst (g.map sqNorm), hj⟩ ∧
      (∀ v ∈ g, sqNorm v ≤ sqNorm (g.get ⟨argmaxFirst (g.map sqNorm), hj⟩)) ∧
      (∀ (i : ℕ) (hi : i < g.length), i < argmaxFirst (g.map sqNorm) →
        sqNorm (g.get ⟨i, hi⟩) < sqNorm (g.get ⟨argmaxFirst (g.map sqNorm), hj⟩)) := by
  have hns : g.map sqNorm ≠ [] := by
    intro h
    exact hne (List.map_eq_nil_iff.mp h)
  have hm : listMax (g.map sqNorm) ∈ g.map sqNorm := listMax_mem _ hns
  have hjn : (g.map sqNorm).indexOf (listMax (g.map sqNorm)) < (g.map sqNorm).length :=
    List.indexOf_lt_length.mpr hm
  have hj : argmaxFirst (g.map sqNorm) < g.length := by
    unfold argmaxFirst
    simpa using hjn
  have hget := List.indexOf_get (a := listMax (g.map sqNorm)) (l := g.map sqNorm)
    (by simpa using hjn)
  rw [List.get_eq_getElem, List.getElem_map] at hget
  have hgm : sqNorm (g.get ⟨argmaxFirst (g.map sqNorm), hj⟩) = listMax (g.map sqNorm) := by
    rw [List.get_eq_getElem]
    exact hget
  refine ⟨hj, ?_, ?_, ?_⟩
  · unfold selectRepresentative
    rw [List.get_eq_getElem]
    exact List.getD_eq_getElem g [] hj
  · intro v hv
    rw [hgm]
    exact le_listMax _ _ (List.mem_map_of_mem sqNorm hv)
  · intro i hi hlt
    rw [hgm]
    have hne2 : (g.map sqNorm).get ⟨i, by simpa using hi⟩ ≠ listMax (g.map sqNorm) :=
      get_lt_indexOf_ne _ _ i (by simpa using hi) hlt
    have hle : (g.map sqNorm).get ⟨i, by simpa using hi⟩ ≤ listMax (g.map sqNorm) :=
      le_listMax _ _ (List.get_mem _ _ _)
    rw [List.get_eq_getElem, List.getElem_map] at hne2 hle
    rw [List.get_eq_getElem]
    exact lt_of_le_of_ne hle hne2

lemma get_zero_headD (L : List Vec) (j : ℕ) (hj : j < L.length) (h0 : j = 0) :
    L.get ⟨j, hj⟩ = L.headD [] := by
  subst h0
  cases L with
  | nil => simp at hj
  | cons a t => rfl

/-- C3: for every `groupby('original_image')` group, the Highest-Norm
selector returns exactly the group member at the first index attaining the
maximal (squared) norm: the returned vector is a member whose norm bounds the
whole group, every strictly earlier member has strictly smaller norm (so ties
resolve to the first-seen member), and a singleton group yields its sole
member. -/
theorem c3_selector_highest_norm (rows : List (String × Vec)) (key : String)
    (hne : groupRows rows key ≠ []) :
    ∃ hj : argmaxFirst ((groupRows rows key).map sqNorm) < (groupRows rows key).length,
      selectRepresentative (groupRows rows key) =
        (groupRows rows key).get ⟨argmaxFirst ((groupRows rows key).map sqNorm), hj⟩ ∧
      (∀ v ∈ groupRows rows key, sqNorm v ≤
        sqNorm ((groupRows rows key).get
          ⟨argmaxFirst ((groupRows rows key).map sqNorm), hj⟩)) ∧
      (∀ (i : ℕ) (hi : i < (groupRows rows key).length),
        i < argmaxFirst ((groupRows rows key).map sqNorm) →
        sqNorm ((groupRows rows key).get ⟨i, hi⟩) <
          sqNorm ((groupRows rows key).get
            ⟨argmaxFirst ((groupRows rows key).map sqNorm), hj⟩)) ∧
      ((groupRows rows key).length = 1 →
        selectRepresentative (groupRows rows key) = (groupRows rows key).headD []) := by
  obtain ⟨hj, hsel, hmax, hfirst⟩ := selectRepresentative_spec (groupRows rows key) hne
  refine ⟨hj, hsel, hmax, hfirst, ?_⟩
  intro hlen
  rw [hsel]
  have h0 : argmaxFirst ((groupRows rows key).map sqNorm) = 0 := by omega
  exact get_zero_headD _ _ hj h0

/-- Witness for C3 on the group of key "a" in a three-row table (members
`[2]` and `[3]`, distinct norms). -/
theorem c3_selector_highest_norm_witness :
    ∃ hj : argmaxFirst ((groupRows [("a", ([2] : Vec)), ("b", [5]), ("a", [3])] "a").map
        sqNorm) < (groupRows [("a", ([2] : Vec)), ("b", [5]), ("a", [3])] "a").length,
      selectRepresentative (groupRows [("a", ([2] : Vec)), ("b", [5]), ("a", [3])] "a") =
        (groupRows [("a", ([2] : Vec)), ("b", [5]), ("a", [3])] "a").get
          ⟨argmaxFirst ((groupRows [("a", ([2] : Vec)), ("b", [5]), ("a", [3])] "a").map
            sqNorm), hj⟩ ∧
      (∀ v ∈ groupRows [("a", ([2] : Vec)), ("b", [5]), ("a", [3])] "a", sqNorm v ≤
        sqNorm ((groupRows [("a", ([2] : Vec)), ("b", [5]), ("a", [3])] "a").get
          ⟨argmaxFirst ((groupRows [("a", ([2] : Vec)), ("b", [5]), ("a", [3])] "a").map
            sqNorm), hj⟩)) ∧
      (∀ (i : ℕ) (hi : i < (groupRows [("a", ([2] : Vec)), ("b", [5]), ("a", [3])] "a").length),
        i < argmaxFirst ((groupRows [("a", ([2] : Vec)), ("b", [5]), ("a", [3])] "a").map sqNorm) →
        sqNorm ((groupRows [("a", ([2] : Vec)), ("b", [5]), ("a", [3])] "a").get ⟨i, hi⟩) <
          sqNorm ((groupRows [("a", ([2] : Vec)), ("b", [5]), ("a", [3])] "a").get
            ⟨argmaxFirst ((groupRows [("a", ([2] : Vec)), ("b", [5]), ("a", [3])] "a").map
              sqNorm), hj⟩)) ∧
      ((groupRows [("a", ([2] : Vec)), ("b", [5]), ("a", [3])] "a").length = 1 →
        selectRepresentative (groupRows [("a", ([2] : Vec)), ("b", [5]), ("a", [3])] "a") =
          (groupRows [("a", ([2] : Vec)), ("b", [5]), ("a", [3])] "a").headD []) :=
  c3_selector_highest_norm [("a", ([2] : Vec)), ("b", [5]), ("a", [3])] "a" (by decide)

/-- C9: when every embedding of a group is unit-normalized (exactly, as in
the exact-arithmetic model of the L2 normalization performed before the
selection step), all norms of the group coincide, so the Highest-Norm
selector degenerates to the first-seen selector. -/
theorem c9_selector_refines_first_seen (rows : List (String × Vec)) (key : String)
    (hne : groupRows rows key ≠ [])
    (hnorm : ∀ v ∈ groupRows rows key, sqNorm v = 1) :
    selectRepresentative (groupRows rows key) =
      firstSeenSelector (groupRows rows key) := by
  cases hg : groupRows rows key with
  | nil => exact absurd hg hne
  | cons x t =>
    rw [hg] at hnorm
    have hx : sqNorm x = 1 := hnorm x (List.mem_cons_self x t)
    have hm : listMax ((x :: t).map sqNorm) = 1 := by
      have hmem : listMax ((x :: t).map sqNorm) ∈ (x :: t).map sqNorm :=
        listMax_mem _ (by simp)
      obtain ⟨v, hv, hveq⟩ := List.mem_map.mp hmem
      rw [← hveq]
      exact hnorm v hv
    have hidx : argmaxFirst ((x :: t).map sqNorm) = 0 := by
      unfold argmaxFirst
      rw [hm]
      refine List.indexOf_cons_eq _ ?_
      exact hx
    unfold selectRepresentative firstSeenSelector
    rw [hidx]
    rfl

/-- Witness for C9 on a group of two distinct unit vectors `[1]` and `[-1]`:
the selector returns the first-seen member `[1]`. -/
theorem c9_selector_refines_first_seen_witness :
    selectRepresentative (groupRows [("a", ([1] : Vec)), ("a", [-1])] "a") =
      firstSeenSelector (groupRows [("a", ([1] : Vec)), ("a", [-1])] "a") :=
  c9_selector_refines_first_seen [("a", ([1] : Vec)), ("a", [-1])] "a" (by decide)
    (by
      have hg : groupRows [("a", ([1] : Vec)), ("a", [-1])] "a" = [[1], [-1]] := by decide
      intro v hv
      rw [hg] at hv
      rcases List.mem_cons.mp hv with rfl | hv
      · norm_num [sqNorm, dot]
      rcases List.mem_cons.mp hv with rfl | hv
      · norm_num [sqNorm, dot]
      · exact absurd hv (List.not_mem_nil v))

lemma idxOfAux_nil_iff : ∀ (l : List String) (q : String) (n : ℕ),
    idxOfAux l q n = [] ↔ ∀ f ∈ l, ¬ f = q := by
  intro l q
  induction l with
  | nil => intro n; simp [idxOfAux]
  | cons f t ih =>
    intro n
    by_cases h : f = q
    · simp [idxOfAux, h]
    · simp [idxOfAux, h, ih (n + 1)]

lemma evalQueryStep11_none_iff (df : List Row) (emb : List Vec) (q : String) :
    evalQueryStep11 df emb q = none ↔ hasEmbedding df q = false := by
  unfold evalQueryStep11
  cases hidx : idxOf (df.map fun r => r.original_image) q with
  | nil =>
    simp only [hidx]
    constructor
    · intro _
      have hall := (idxOfAux_nil_iff _ q 0).mp hidx
      unfold hasEmbedding
      rw [Bool.eq_false_iff]
      intro hany
      obtain ⟨r, hr, hrq⟩ := List.any_eq_true.mp hany
      exact hall r.original_image (List.mem_map_of_mem _ hr) (by simpa using hrq)
    · intro _
      trivial
  | cons i t =>
    simp only [hidx]
    constructor
    · intro h
      exact absurd h (by simp)
    · intro hfalse
      exfalso
      have hall : ∀ f ∈ df.map (fun r => r.original_image), ¬ f = q := by
        intro f hf
        obtain ⟨r, hr, rfl⟩ := List.mem_map.mp hf
        intro hq
        rw [Bool.eq_false_iff] at hfalse
        exact hfalse (List.any_eq_true.mpr ⟨r, hr, by simpa using hq⟩)
      have : idxOf (df.map fun r => r.original_image) q = [] :=
        (idxOfAux_nil_iff _ q 0).mpr hall
      rw [this] at hidx
      exact absurd hidx (by simp)

lemma step11_go (df : List Row) (emb : List Vec) :
    ∀ (queries : List String) (w : List String) (rs : List EvalRow),
    queries.foldl
      (fun acc q =>
        match evalQueryStep11 df emb q with
        | none => (acc.1 ++ [warnMsg q], acc.2)
        | some r => (acc.1, acc.2 ++ [r]))
      (w, rs) =
    (w ++ (queries.filter (fun q => !(hasEmbedding df q))).map warnMsg,
     rs ++ (queries.filter (fun q => hasEmbedding df q)).map
       (fun q => (evalQueryStep11 df emb q).getD default)) := by
  intro queries
  induction queries with
  | nil => intro w rs; simp
  | cons q t ih =>
    intro w rs
    simp only [List.foldl_cons]
    cases hq : evalQueryStep11 df emb q with
    | none =>
      have hemb : hasEmbedding df q = false := (evalQueryStep11_none_iff df emb q).mp hq
      rw [ih (w ++ [warnMsg q]) rs]
      simp [hemb]
    | some r =>
      have hemb : hasEmbedding df q = true := by
        cases hcase : hasEmbedding df q with
        | false =>
          rw [(evalQueryStep11_none_iff df emb q).mpr hcase] at hq
          exact absurd hq (by simp)
        | true => rfl
      rw [ih w (rs ++ [r])]
      simp [hemb, hq]

/-- C8: the Step 11 aggregation loop never aborts: each query without an
embedding contributes exactly its warning message (and no result row), every
remaining query is still evaluated, and the resulting table has exactly one
row per successfully evaluated query, in query order. -/
theorem c8_aggregator_skips_missing (df : List Row) (emb : List Vec)
    (queries : List String) :
    (step11 df emb queries).1 =
      (queries.filter (fun q => !(hasEmbedding df q))).map warnMsg ∧
    (step11 df emb queries).2 =
      (queries.filter (fun q => hasEmbedding df q)).map
        (fun q => (evalQueryStep11 df emb q).getD default) ∧
    (step11 df emb queries).2.length =
      (queries.filter (fun q => hasEmbedding df q)).length := by
  unfold step11
  rw [step11_go]
  simp

lemma accuracy_core (n t : ℕ) (hnt : n ≤ t) :
    0 ≤ (if 0 < t then (n : ℚ) / (t : ℚ) else 0) ∧
    (if 0 < t then (n : ℚ) / (t : ℚ) else 0) ≤ 1 ∧
    (t = 0 → (if 0 < t then (n : ℚ) / (t : ℚ) else 0) = 0) := by
  by_cases h : 0 < t
  · have ht : (0 : ℚ) < (t : ℚ) := by exact_mod_cast h
    have hn : (0 : ℚ) ≤ (n : ℚ) := by positivity
    have hle : (n : ℚ) ≤ (t : ℚ) := by exact_mod_cast hnt
    refine ⟨?_, ?_, ?_⟩
    · rw [if_pos h]
      positivity
    · rw [if_pos h]
      exact (div_le_one ht).mpr hle
    · intro h0
      omega
  · refine ⟨?_, ?_, ?_⟩ <;> rw [if_neg h] <;> norm_num

/-- C4 (amended): `match_accuracy` is `num_matches_found /
total_available_matches` when the denominator is positive and a defined `0`
otherwise (never a division error), and it lies in `[0, 1]` whenever the
retrieved rows are drawn without repetition from the dataset rows — which
holds in normal operation, when `k ≤ N`.  (When `k > N` the FAISS `-1`
padding makes retrieved rows repeat and the bound fails; see the
counterexample.) -/
theorem c4_match_accuracy (df retrieved : List Row) (q : String)
    (hsub : List.Subperm retrieved df) :
    0 ≤ (evaluate_retrieval df q retrieved).2.2 ∧
    (evaluate_retrieval df q retrieved).2.2 ≤ 1 ∧
    ((evaluate_retrieval df q retrieved).2.1 = 0 →
      (evaluate_retrieval df q retrieved).2.2 = 0) ∧
    (0 < (evaluate_retrieval df q retrieved).2.1 →
      (evaluate_retrieval df q retrieved).2.2 =
        ((evaluate_retrieval df q retrieved).1 : ℚ) /
          ((evaluate_retrieval df q retrieved).2.1 : ℚ)) := by
  have hnum : (evaluate_retrieval df q retrieved).1 =
      ((retrieved.filter (fun r => strStarts r.original_image (pySplitFirst q))).filter
        (fun r => rowSource r == "matches")).length := rfl
  have htot : (evaluate_retrieval df q retrieved).2.1 =
      (df.filter (fun r => strStarts r.original_image (pySplitFirst q) &&
        (rowSource r == "matches"))).length := rfl
  have hacc : (evaluate_retrieval df q retrieved).2.2 =
      (if 0 < (evaluate_retrieval df q retrieved).2.1 then
        ((evaluate_retrieval df q retrieved).1 : ℚ) /
          ((evaluate_retrieval df q retrieved).2.1 : ℚ)
      else 0) := rfl
  have hnt : (evaluate_retrieval df q retrieved).1 ≤
      (evaluate_retrieval df q retrieved).2.1 := by
    rw [hnum, htot]
    rw [List.filter_filter]
    have hcomm : (fun a : Row => rowSource a == "matches" &&
        strStarts a.original_image (pySplitFirst q)) =
        (fun r : Row => strStarts r.original_image (pySplitFirst q) &&
          (rowSource r == "matches")) := by
      funext a
      exact Bool.and_comm _ _
    rw [hcomm]
    exact (hsub.filter _).length_le
  obtain ⟨h0, h1, hz⟩ := accuracy_core (evaluate_retrieval df q retrieved).1
    (evaluate_retrieval df q retrieved).2.1 hnt
  refine ⟨?_, ?_, ?_, ?_⟩
  · rw [hacc]; exact h0
  · rw [hacc]; exact h1
  · intro h; rw [hacc]; exact hz h
  · intro h; rw [hacc, if_pos h]

/-- Witness for C4 on a one-row table with the retrieved set equal to the
table itself. -/
theorem c4_match_accuracy_witness :
    0 ≤ (evaluate_retrieval [⟨"004_01.jpg", "004_01.jpg"⟩] "004_01.jpg"
        [⟨"004_01.jpg", "004_01.jpg"⟩]).2.2 ∧
    (evaluate_retrieval [⟨"004_01.jpg", "004_01.jpg"⟩] "004_01.jpg"
        [⟨"004_01.jpg", "004_01.jpg"⟩]).2.2 ≤ 1 ∧
    ((evaluate_retrieval [⟨"004_01.jpg", "004_01.jpg"⟩] "004_01.jpg"
        [⟨"004_01.jpg", "004_01.jpg"⟩]).2.1 = 0 →
      (evaluate_retrieval [⟨"004_01.jpg", "004_01.jpg"⟩] "004_01.jpg"
        [⟨"004_01.jpg", "004_01.jpg"⟩]).2.2 = 0) ∧
    (0 < (evaluate_retrieval [⟨"004_01.jpg", "004_01.jpg"⟩] "004_01.jpg"
        [⟨"004_01.jpg", "004_01.jpg"⟩]).2.1 →
      (evaluate_retrieval [⟨"004_01.jpg", "004_01.jpg"⟩] "004_01.jpg"
          [⟨"004_01.jpg", "004_01.jpg"⟩]).2.2 =
        ((evaluate_retrieval [⟨"004_01.jpg", "004_01.jpg"⟩] "004_01.jpg"
            [⟨"004_01.jpg", "004_01.jpg"⟩]).1 : ℚ) /
          ((evaluate_retrieval [⟨"004_01.jpg", "004_01.jpg"⟩] "004_01.jpg"
            [⟨"004_01.jpg", "004_01.jpg"⟩]).2.1 : ℚ)) :=
  c4_match_accuracy [⟨"004_01.jpg", "004_01.jpg"⟩] [⟨"004_01.jpg", "004_01.jpg"⟩]
    "004_01.jpg" (List.Subperm.refl _)

/-- C4 counterexample: on a dataset with a single image "004_01.jpg", the
Step 11 evaluation (which always searches with `k = 10`) receives nine `-1`
padding slots, each of which Python indexing resolves to the same last row;
`evaluate_retrieval` then counts 10 found matches against 1 available match
and reports `match_accuracy = 10`, outside `[0, 1]`. -/
theorem c4_counterexample :
    ((evalQueryStep11 [⟨"004_01.jpg", "004_01.jpg"⟩] [[1]] "004_01.jpg").map
      (fun r => (r.num_found, r.total_avail))) = some (10, 1) ∧
    ∃ r, evalQueryStep11 [⟨"004_01.jpg", "004_01.jpg"⟩] [[1]] "004_01.jpg" = some r ∧
      1 < r.accuracy := by
  refine ⟨by decide, ⟨_, rfl, ?_⟩⟩
  show (1 : ℚ) < ((10 : ℕ) : ℚ) / ((1 : ℕ) : ℚ)
  norm_num

lemma rankedNeighbors_length (q : Vec) (xs : List Vec) :
    (rankedNeighbors q xs).length = xs.length := by
  unfold rankedNeighbors
  rw [(List.perm_insertionSort dKey _).length_eq]
  simp

lemma rankedNeighbors_sorted (q : Vec) (xs : List Vec) :
    List.Sorted dKey (rankedNeighbors q xs) :=
  List.sorted_insertionSort dKey _

lemma mem_rankedNeighbors_iff (q : Vec) (xs : List Vec) (p : ℕ × ℚ) :
    p ∈ rankedNeighbors q xs ↔ p ∈ (xs.map (sqDist q)).enum :=
  (List.perm_insertionSort dKey _).mem_iff

lemma mem_rankedNeighbors_dist (q : Vec) (xs : List Vec) (p : ℕ × ℚ)
    (hp : p ∈ rankedNeighbors q xs) :
    ∃ h : p.1 < xs.length, p.2 = sqDist q (xs.get ⟨p.1, h⟩) := by
  obtain ⟨i, d⟩ := p
  rw [mem_rankedNeighbors_iff] at hp
  have hsome : (xs.map (sqDist q))[i]? = some d := List.mk_mem_enum_iff_getElem?.mp hp
  rw [List.getElem?_map] at hsome
  cases hx : xs[i]? with
  | none => rw [hx] at hsome; exact absurd hsome (by simp)
  | some v =>
    rw [hx] at hsome
    have hi : i < xs.length := by
      by_contra hcon
      rw [List.getElem?_eq_none (by omega)] at hx
      exact absurd hx (by simp)
    refine ⟨hi, ?_⟩
    have hv : xs.get ⟨i, hi⟩ = v := by
      have := List.getElem?_eq_getElem hi
      rw [hx] at this
      simpa [List.get_eq_getElem] using this.symm
    have hsome2 : sqDist q v = d := by
      simpa using hsome
    rw [hv]
    exact hsome2.symm

lemma self_mem_enum_dist (q : Vec) (xs : List Vec) (i : ℕ) (hi : i < xs.length)
    (hq : xs.get ⟨i, hi⟩ = q) :
    (i, (0 : ℚ)) ∈ (xs.map (sqDist q)).enum := by
  rw [List.mk_mem_enum_iff_getElem?, List.getElem?_map, List.getElem?_eq_getElem hi]
  have : xs[i] = q := by
    rw [← hq]
    simp [List.get_eq_getElem]
  rw [this]
  simp [sqDist_self]

lemma faissSearch_length (q : Vec) (xs : List Vec) (k : ℕ) :
    (faissSearch q xs k).length = k := by
  unfold faissSearch
  rw [List.length_append, List.length_map, List.length_take, rankedNeighbors_length,
    List.length_replicate]
  omega

lemma faissSearch_take_pairwise (q : Vec) (xs : List Vec) (k : ℕ) :
    List.Pairwise (fun a b : ℤ × ℚ => a.2 ≤ b.2)
      ((faissSearch q xs k).take (min k xs.length)) := by
  unfold faissSearch
  have hlen : (((rankedNeighbors q xs).take k).map
      (fun p => ((p.1 : ℤ), p.2))).length = min k xs.length := by
    rw [List.length_map, List.length_take, rankedNeighbors_length]
  rw [← hlen, List.take_left]
  rw [List.pairwise_map]
  have hpw : (rankedNeighbors q xs).Pairwise (fun a b : ℕ × ℚ => a.2 ≤ b.2) := by
    apply (rankedNeighbors_sorted q xs).imp
    intro a b hab
    rcases hab with h | ⟨h, _⟩
    · exact le_of_lt h
    · exact le_of_eq h
  exact hpw.sublist (List.take_sublist k _)

lemma mem_drop_append_replicate {A : List (ℤ × ℚ)} {n m : ℕ} {a p : ℤ × ℚ}
    (hle : A.length ≤ n) (hp : p ∈ (A ++ List.replicate m a).drop n) : p = a := by
  obtain ⟨m2, hm2⟩ : ∃ m2, n = A.length + m2 := ⟨n - A.length, by omega⟩
  subst hm2
  rw [List.drop_append] at hp
  exact List.eq_of_mem_replicate (List.mem_of_mem_drop hp)

lemma faissSearch_padding (q : Vec) (xs : List Vec) (k : ℕ) (p : ℤ × ℚ)
    (hp : p ∈ (faissSearch q xs k).drop xs.length) : p = (-1, -1) := by
  unfold faissSearch at hp
  have hle : (((rankedNeighbors q xs).take k).map
      (fun p => ((p.1 : ℤ), p.2))).length ≤ xs.length := by
    rw [List.length_map, List.length_take, rankedNeighbors_length]
    omega
  exact mem_drop_append_replicate hle hp

lemma faissSearch_top_self (q : Vec) (xs : List Vec) (k : ℕ)
    (hk : 0 < k) (hq : q ∈ xs) (hlen : ∀ v ∈ xs, v.length = q.length) :
    ∃ i : ℕ, i < xs.length ∧ (faissSearch q xs k).headD (-1, -1) = ((i : ℤ), 0) ∧
      xs.getD i [] = q := by
  obtain ⟨⟨iq, hiq⟩, hgetq⟩ := List.mem_iff_get.mp hq
  have he : (iq, (0 : ℚ)) ∈ (xs.map (sqDist q)).enum :=
    self_mem_enum_dist q xs iq hiq hgetq
  have hmem : (iq, (0 : ℚ)) ∈ rankedNeighbors q xs :=
    (mem_rankedNeighbors_iff q xs _).mpr he
  obtain ⟨h0, tl, hcons⟩ : ∃ h0 tl, rankedNeighbors q xs = h0 :: tl := by
    cases hr : rankedNeighbors q xs with
    | nil => rw [hr] at hmem; exact absurd hmem (List.not_mem_nil _)
    | cons a t => exact ⟨a, t, rfl⟩
  have hh0 : h0 ∈ rankedNeighbors q xs := by
    rw [hcons]; exact List.mem_cons_self _ _
  obtain ⟨hh0lt, hh0d⟩ := mem_rankedNeighbors_dist q xs h0 hh0
  have h0le : h0.2 ≤ 0 := by
    rw [hcons] at hmem
    rcases List.mem_cons.mp hmem with h | h
    · rw [← h]
    · have hsorted := rankedNeighbors_sorted q xs
      rw [hcons] at hsorted
      have := List.rel_of_sorted_cons hsorted _ h
      rcases this with hlt | ⟨heq, _⟩
      · exact le_of_lt hlt
      · exact le_of_eq heq
  have h0ge : (0 : ℚ) ≤ h0.2 := by
    rw [hh0d]; exact sqDist_nonneg _ _
  have h0eq : h0.2 = 0 := le_antisymm h0le h0ge
  have hxq : xs.get ⟨h0.1, hh0lt⟩ = q := by
    have hd0 : sqDist q (xs.get ⟨h0.1, hh0lt⟩) = 0 := by
      rw [← hh0d]; exact h0eq
    have hql : q.length = (xs.get ⟨h0.1, hh0lt⟩).length :=
      (hlen _ (List.get_mem xs _ _)).symm
    exact (sqDist_eq_zero q _ hql hd0).symm
  obtain ⟨k', rfl⟩ : ∃ k', k = k' + 1 := ⟨k - 1, by omega⟩
  refine ⟨h0.1, hh0lt, ?_, ?_⟩
  · unfold faissSearch
    rw [hcons, List.take_succ_cons]
    simp [h0eq]
  · rw [List.getD_eq_getElem xs [] hh0lt]
    rw [← hxq]
    simp [List.get_eq_getElem]

/-- C6 counterexample: an index holding `N = 1` vector searched with `k = 3`
returns 3 result slots (two of them `-1` padding), not `min(3, 1) = 1`
results as the claim states. -/
theorem c6_counterexample :
    (faissSearch [1] [[1]] 3).length = 3 ∧
      (faissSearch [1] [[1]] 3).length ≠ min 3 ([[1]] : List Vec).length := by
  constructor
  · rw [faissSearch_length]
  · rw [faissSearch_length]
    decide

/-- C6 (amended): `search(q, k)` returns exactly `k` result slots: the first
`min(k, N)` are the nearest stored vectors sorted by non-decreasing squared
distance, the slots beyond position `N` hold the sentinel `(-1, -1)`, and
querying with a vector already stored in the index returns (a copy of) that
vector at distance 0 as the top result. -/
theorem c6_search_results (q : Vec) (xs : List Vec) (k : ℕ)
    (hk : 0 < k) (hq : q ∈ xs) (hlen : ∀ v ∈ xs, v.length = q.length) :
    (faissSearch q xs k).length = k ∧
    List.Pairwise (fun a b : ℤ × ℚ => a.2 ≤ b.2)
      ((faissSearch q xs k).take (min k xs.length)) ∧
    (∀ p ∈ (faissSearch q xs k).drop xs.length, p = ((-1 : ℤ), (-1 : ℚ))) ∧
    ∃ i : ℕ, i < xs.length ∧ (faissSearch q xs k).headD (-1, -1) = ((i : ℤ), 0) ∧
      xs.getD i [] = q :=
  ⟨faissSearch_length q xs k, faissSearch_take_pairwise q xs k,
   fun p hp => faissSearch_padding q xs k p hp,
   faissSearch_top_self q xs k hk hq hlen⟩

/-- Witness for C6 on the index `[[0], [1]]` queried with its stored vector
`[1]` and `k = 1`. -/
theorem c6_search_results_witness :
    (faissSearch [1] [[0], [1]] 1).length = 1 ∧
    List.Pairwise (fun a b : ℤ × ℚ => a.2 ≤ b.2)
      ((faissSearch [1] [[0], [1]] 1).take (min 1 ([[0], [1]] : List Vec).length)) ∧
    (∀ p ∈ (faissSearch [1] [[0], [1]] 1).drop ([[0], [1]] : List Vec).length,
      p = ((-1 : ℤ), (-1 : ℚ))) ∧
    ∃ i : ℕ, i < ([[0], [1]] : List Vec).length ∧
      (faissSearch [1] [[0], [1]] 1).headD (-1, -1) = ((i : ℤ), 0) ∧
      ([[0], [1]] : List Vec).getD i [] = [1] :=
  c6_search_results [1] [[0], [1]] 1 (by decide) (by decide) (by decide)

/-- C10: when `search` is called with `k` larger than the number `N` of
indexed vectors, each of the `k - N` extra result slots holds the sentinel
index `-1`, and the subsequent Python positional lookup resolves every `-1`
to the last stored row, so the retrieved list silently ends with `k - N`
copies of the last indexed image instead of raising an error or containing
only `min(k, N)` entries. -/
theorem c10_padding_wraps_to_last (q : Vec) (xs : List Vec) (files : List String)
    (k : ℕ) (_hN : 0 < xs.length) (hk : xs.length < k)
    (hf : files.length = xs.length) :
    (faissSearch q xs k).length = k ∧
    0 < k - xs.length ∧
    (∀ p ∈ (faissSearch q xs k).drop xs.length, p.1 = -1) ∧
    ((faissSearch q xs k).drop xs.length).map (fun p => pyGet files "" p.1) =
      List.replicate (k - xs.length) (files.getD (files.length - 1) "") := by
  have hAlen : (((rankedNeighbors q xs).take k).map
      (fun p => ((p.1 : ℤ), p.2))).length = xs.length := by
    rw [List.length_map, List.length_take, rankedNeighbors_length]
    omega
  have hdrop : (faissSearch q xs k).drop xs.length =
      List.replicate (k - xs.length) ((-1 : ℤ), (-1 : ℚ)) := by
    unfold faissSearch
    rw [← hAlen, List.drop_left]
  refine ⟨faissSearch_length q xs k, by omega, ?_, ?_⟩
  · intro p hp
    have := faissSearch_padding q xs k p hp
    rw [this]
  · rw [hdrop, List.map_replicate]
    have hpy : pyGet files "" (-1) = files.getD (files.length - 1) "" := by
      unfold pyGet
      norm_num
    rw [hpy]

/-- Witness for C10: a two-vector index searched with `k = 3`, whose single
padding slot resolves to the last file "b.jpg". -/
theorem c10_padding_wraps_to_last_witness :
    (faissSearch [1] [[1], [2]] 3).length = 3 ∧
    0 < 3 - ([[1], [2]] : List Vec).length ∧
    (∀ p ∈ (faissSearch [1] [[1], [2]] 3).drop ([[1], [2]] : List Vec).length,
      p.1 = -1) ∧
    ((faissSearch [1] [[1], [2]] 3).drop ([[1], [2]] : List Vec).length).map
        (fun p => pyGet ["a.jpg", "b.jpg"] "" p.1) =
      List.replicate (3 - ([[1], [2]] : List Vec).length)
        ((["a.jpg", "b.jpg"] : List String).getD
          ((["a.jpg", "b.jpg"] : List String).length - 1) "") :=
  c10_padding_wraps_to_last [1] [[1], [2]] ["a.jpg", "b.jpg"] 3
    (by decide) (by decide) (by decide)

/-- C1 counterexample: on a table holding the query "004_03.jpg" itself and
the unrelated 4-digit-group image "0041_01.jpg", `evaluate_retrieval`
reports `total_available_matches = 2`: it counts by the prefix test
`startswith("004")` — which also captures group "0041" — and does not
exclude the query's own row; under the claimed rule (exact group-id
equality, query excluded) the count is 0. -/
theorem c1_counterexample :
    (evaluate_retrieval
      [⟨"004_03.jpg", "004_03.jpg"⟩, ⟨"0041_01.jpg", "0041_01.jpg"⟩]
      "004_03.jpg" []).2.1 = 2 ∧
    ((([⟨"004_03.jpg", "004_03.jpg"⟩, ⟨"0041_01.jpg", "0041_01.jpg"⟩] :
        List Row).map (fun r => r.original_image)).eraseIdx 0).filter
      (fun f => get_match_set f == get_match_set "004_03.jpg") = [] := by
  decide

lemma idxOfAux_unique (l : List String) (q : String) :
    ∀ (qi n : ℕ), l.get? qi = some q → (∀ j, l.get? j = some q → j = qi) →
      idxOfAux l q n = [n + qi] := by
  induction l with
  | nil =>
    intro qi n h _
    exact absurd h (by simp)
  | cons f t ih =>
    intro qi n hget huniq
    by_cases hf : f = q
    · have hq0 : qi = 0 := (huniq 0 (by simp [hf])).symm
      subst hq0
      have htail : idxOfAux t q (n + 1) = [] := by
        rw [idxOfAux_nil_iff]
        intro x hx hxq
        obtain ⟨j, hj⟩ := List.get?_of_mem hx
        have hj2 : (f :: t).get? (j + 1) = some q := by
          simpa [hxq] using hj
        have := huniq (j + 1) hj2
        omega
      simp [idxOfAux, hf, htail]
    · cases qi with
      | zero =>
        rw [List.get?_cons_zero] at hget
        exact absurd (Option.some.injEq _ _ |>.mp hget) hf
      | succ j =>
        have hget2 : t.get? j = some q := by simpa using hget
        have huniq2 : ∀ j2, t.get? j2 = some q → j2 = j := by
          intro j2 hj2
          have : (f :: t).get? (j2 + 1) = some q := by simpa using hj2
          have := huniq (j2 + 1) this
          omega
        have hrec := ih j (n + 1) hget2 huniq2
        simp only [idxOfAux, beq_iff_eq, if_neg hf, hrec]
        congr 1
        omega

lemma filter_eraseIdx_count (l : List String) (p : String → Bool) :
    ∀ (i : ℕ) (hi : i < l.length), p (l.get ⟨i, hi⟩) = true →
      ((l.eraseIdx i).filter p).length + 1 = (l.filter p).length := by
  induction l with
  | nil => intro i hi; simp at hi
  | cons x t ih =>
    intro i hi hp
    cases i with
    | zero =>
      have hx : p x = true := hp
      simp [List.eraseIdx_cons_zero, List.filter_cons, hx]
    | succ j =>
      have hj : j < t.length := by simpa using hi
      have hp2 : p (t.get ⟨j, hj⟩) = true := by simpa using hp
      have hrec := ih j hj hp2
      cases hx : p x <;>
        simp [List.eraseIdx_cons_succ, List.filter_cons, hx] <;>
        omega

/-- C1 (amended): the cross-model evaluator `retrieve_images_for_model`
does compute `total_available_matches` as the count of all images other
than the query sharing the query's `match_set` label under exact equality
(implemented as the full `match_set` count minus one); but the per-model
evaluator `evaluate_retrieval` instead counts, *including* the query's own
rows, every row whose `original_image` merely starts with the query's
pre-underscore prefix (so a 3-digit group also captures the 4-digit groups
extending it) — see the counterexample. -/
theorem c1_total_matches (files : List String) (embs : List Vec) (query : String)
    (k qi : ℕ) (hget : files.get? qi = some query)
    (huniq : ∀ j, files.get? j = some query → j = qi) :
    (retrieve_images_for_model files embs query k).map (fun r => r.2.2.1) =
      some ((((files.eraseIdx qi).filter
        (fun f => get_match_set f == get_match_set query)).length : ℤ)) := by
  have hqi_lt : qi < files.length := by
    by_contra hcon
    rw [List.get?_eq_none.mpr (by omega)] at hget
    exact absurd hget (by simp)
  have hidx : idxOf files query = [qi] := by
    have := idxOfAux_unique files query qi 0 hget huniq
    simpa [idxOf] using this
  have hgetD : files.getD qi "" = query := by
    rw [List.getD_eq_getElem files "" hqi_lt]
    have := List.getElem?_eq_getElem hqi_lt
    rw [List.get?_eq_getElem?] at hget
    rw [this] at hget
    exact (Option.some.injEq _ _).mp hget
  have hcount := filter_eraseIdx_count files
    (fun f => get_match_set f == get_match_set query) qi hqi_lt
    (by
      have hq : files[qi] = query := by
        rw [← hgetD, List.getD_eq_getElem files "" hqi_lt]
      simp [hq])
  have hCE : ((files.filter
        (fun f => get_match_set f == get_match_set query)).length : ℤ) - 1 =
      (((files.eraseIdx qi).filter
        (fun f => get_match_set f == get_match_set query)).length : ℤ) := by
    omega
  simp only [retrieve_images_for_model, hidx]
  simp only [Option.map_some', hgetD]
  rw [hCE]

/-- Witness for C1 on a two-image file list where the query "004_01.jpg"
sits at index 0 and shares match-set "004" with "004_02.jpg". -/
theorem c1_total_matches_witness :
    (retrieve_images_for_model ["004_01.jpg", "004_02.jpg"] [[1], [0]]
        "004_01.jpg" 1).map (fun r => r.2.2.1) =
      some (((((["004_01.jpg", "004_02.jpg"] : List String).eraseIdx 0).filter
        (fun f => get_match_set f == get_match_set "004_01.jpg")).length : ℤ)) :=
  c1_total_matches ["004_01.jpg", "004_02.jpg"] [[1], [0]] "004_01.jpg" 1 0 rfl
    (by
      intro j hj
      match j with
      | 0 => rfl
      | 1 => exact absurd hj (by decide)
      | n + 2 =>
        rw [List.get?_eq_none.mpr (by simp)] at hj
        exact absurd hj (by simp))

end CBIR
